import Mathlib

/-!
Verification of the `pad` point-to-point file transfer program
(`server.c`, the client, and `message.h`) against its natural-language
specification.

The development shallowly embeds the transfer-relevant C code:
 - wire bytes are `Nat` values in `[0, 256)`; the C `char` (signed on the
   target, gcc/x86-64 Linux) interpretation of a wire byte is `byteVal`;
 - the per-segment checksum (`send_file` in server.c, `receive_file` in the
   client) is the sum of the data bytes as signed chars, reduced with C's
   truncating `%` (`Int.tmod`), stored as one byte via the two's-complement
   cast `toByte`;
 - the sender loop `send_file` and the receiver loop `receive_file` are
   embedded as fuel-indexed functions (`sendLoop`, `receiveSession`);
   `none` means the loop did not return within the given fuel, so a result
   of `none` for every fuel models non-termination;
 - socket reads, `realloc` and `fwrite` outcomes on the receive path are
   supplied by an environment record `SocketIter`, one per loop iteration,
   mirroring the syscall sequence of `receive_file`.
-/

/-- Signed `char` value (gcc x86-64: `char` is signed, 8 bits) of a wire
byte `b < 256`; models `(int) buffer[i]` in the checksum loops. -/
def byteVal (b : Nat) : Int :=
  if b < 128 then (b : Int) else (b : Int) - 256

/-- Wire byte stored by the cast `(char) checksum` (two's complement). -/
def toByte (i : Int) : Nat := (i % 256).toNat

/-- Constant `DIVISOR` in server.c and the client. -/
def DIVISOR : Nat := 32

/-- Constant `BLKSIZE` in server.c: segment data size. -/
def BLKSIZE : Nat := 512

/-- Constant `MAX_ALLOCATION_SIZE` in server.c: largest accepted request length. -/
def MAX_ALLOCATION_SIZE : Nat := 1024

/-- Per-segment checksum of server.c `send_file` lines 261-265:
`int checksum = 0; for(i) checksum += (int) buffer[i]; checksum %= DIVISOR;`.
C's `%` on `int` truncates toward zero, which is `Int.tmod`. -/
def checksum (data : List Nat) : Int :=
  ((data.map byteVal).sum).tmod (DIVISOR : Int)

/-- Receiver-side checksum comparison, `receive_file` lines 506-512 of the
client: recompute over the data bytes and compare with `(int)` of the
trailing checksum byte. `true` means the check passes. -/
def recv_checksum_ok (data : List Nat) (ckByte : Nat) : Bool :=
  checksum data == byteVal ckByte

/-- Struct `message_header` from message.h: a tag byte and a 32-bit length.
Field values are modelled as `Nat` (`message_type` is the byte value of the
stored `char`). -/
structure message_header where
  message_type : Nat
  message_size : Nat
deriving DecidableEq, Repr

/-- The request/segment tag byte `'f'` (ASCII 0x66). -/
def fByte : Nat := 102

/-- Value of `sizeof(char)` on the target. -/
def sizeof_char : Nat := 1

/-- Value of `sizeof(uint32_t)`. -/
def sizeof_uint32_t : Nat := 4

/-- Alignment of `uint32_t` under the System V ABI used by the makefile's
gcc build (x86-64 Linux): 4 bytes. -/
def alignof_uint32_t : Nat := 4

/-- Value of `offsetof(message_header, message_size)`: the `char` occupies offset 0
and the `uint32_t` member is placed at the next multiple of its
alignment. -/
def offsetof_message_size : Nat :=
  ((sizeof_char + alignof_uint32_t - 1) / alignof_uint32_t) * alignof_uint32_t

/-- Value of `sizeof(message_header)`: the struct size is the end of the last member
rounded up to the struct alignment (the maximum member alignment, 4). -/
def sizeof_message_header : Nat :=
  ((offsetof_message_size + sizeof_uint32_t + alignof_uint32_t - 1) /
      alignof_uint32_t) * alignof_uint32_t

/-- Number of padding bytes inside `message_header`. -/
def header_padding_bytes : Nat := offsetof_message_size - sizeof_char

/-- Byte count passed to every header `write` in `send_file`
(server.c line 252) and to every header `read` in `receive_file`
(client line 472): both are `sizeof(message_header)`. -/
def header_io_byte_count : Nat := sizeof_message_header

/-!
## Server request path (`accept_file_request`, server.c lines 119-160)

The environment of one call is: the result of the header `read` (`none`
models a return of -1), whether `malloc` succeeds, and the result of the
filename `read`. Besides the C function's return value the embedding
records the sizes of all allocations requested, in order, so that
"rejected before any allocation" is expressible.
-/

/-- Function `accept_file_request` of server.c: read header; reject if the tag is
not `'f'`; reject if `message_size > MAX_ALLOCATION_SIZE`; `malloc` the
declared size; read the filename. Returns the filename (or `none` for the
C `NULL`) paired with the list of requested allocation sizes. -/
def accept_file_request (hr : Option message_header) (mallocOk : Bool)
    (nr : Option (List Nat)) : Option (List Nat) × List Nat :=
  match hr with
  | none => (none, [])
  | some h =>
    if h.message_type ≠ fByte then (none, [])
    else if MAX_ALLOCATION_SIZE < h.message_size then (none, [])
    else
      if mallocOk then
        match nr with
        | none => (none, [h.message_size])
        | some name => (some name, [h.message_size])
      else (none, [h.message_size])

/-- From `main` of server.c: `check_if_file_exist`, which performs the only
reply `write` of the session, is invoked iff `accept_file_request` returned
non-`NULL`; on `NULL` the server closes the connection and exits. -/
def session_sends_reply (hr : Option message_header) (mallocOk : Bool)
    (nr : Option (List Nat)) : Bool :=
  ((accept_file_request hr mallocOk nr).1).isSome

/-!
## Client destination name and decision (client `receive_file` and `main`)
-/

/-- Destination file name built by `receive_file` (client lines 448-460):
`sprintf(filename_buffer, "received_%s", filename)`; the output file is
opened with this name and no other file is opened for writing. -/
def dest_filename (filename : List Char) : List Char :=
  ("received_".data) ++ filename

/-- Outcome of the client `main` after the initial server reply
(client lines 566-596). -/
inductive ClientAction where
  | errorExit
  | reportAbsent
  | invokeReceive
  | closeWithoutReceive
deriving DecidableEq, Repr

/-- Client `main` after `await_initial_server_reply`: `-1` exits, `0`
reports absence, otherwise one character is read from stdin and
`receive_file` runs only on `'Y'` or `'y'`. -/
def client_after_reply (filesize : Int) (response : Char) : ClientAction :=
  if filesize = -1 then .errorExit
  else if filesize = 0 then .reportAbsent
  else if response = 'Y' ∨ response = 'y' then .invokeReceive
  else .closeWithoutReceive

/-!
## Helper lemmas about `Int.tmod` and byte casts
-/

theorem tmod32_lt (s : Int) : s.tmod 32 < 32 :=
  Int.tmod_lt_of_pos s (by norm_num)

theorem tmod32_gt (s : Int) : -32 < s.tmod 32 := by
  cases s with
  | ofNat m =>
    have h : (Int.ofNat m).tmod 32 = Int.ofNat (m % 32) := rfl
    rw [h]
    have h0 : (0 : Int) ≤ Int.ofNat (m % 32) := Int.ofNat_nonneg _
    omega
  | negSucc m =>
    have h : (Int.negSucc m).tmod 32 = -Int.ofNat ((m + 1) % 32) := rfl
    rw [h]
    have h1 : (m + 1) % 32 < 32 := Nat.mod_lt _ (by norm_num)
    have h2 : Int.ofNat ((m + 1) % 32) < Int.ofNat 32 := Int.ofNat_lt.mpr h1
    have h3 : (Int.ofNat 32 : Int) = 32 := rfl
    omega

theorem dvd_sub_tmod32 (s : Int) : (32 : Int) ∣ (s - s.tmod 32) := by
  have h := Int.tmod_def s 32
  exact ⟨s.tdiv 32, by omega⟩

theorem byteVal_toByte {i : Int} (h₁ : -128 ≤ i) (h₂ : i < 128) :
    byteVal (toByte i) = i := by
  unfold byteVal toByte
  rcases le_or_lt 0 i with hi | hi
  · have he : i % 256 = i := Int.emod_eq_of_lt hi (by omega)
    rw [he]
    have : i.toNat < 128 := by omega
    simp [this]
    omega
  · have he : i % 256 = i + 256 := by
      have h256 : (i + 256) % 256 = i + 256 := Int.emod_eq_of_lt (by omega) (by omega)
      omega
    rw [he]
    have h1 : ¬ (i + 256).toNat < 128 := by omega
    simp [h1]
    omega

theorem checksum_lb (data : List Nat) : -32 < checksum data := by
  unfold checksum DIVISOR
  exact tmod32_gt _

theorem checksum_ub (data : List Nat) : checksum data < 32 := by
  unfold checksum DIVISOR
  exact tmod32_lt _

theorem byteVal_toByte_checksum (data : List Nat) :
    byteVal (toByte (checksum data)) = checksum data :=
  byteVal_toByte (by have := checksum_lb data; omega)
    (by have := checksum_ub data; omega)

/-!
## Send path (`send_file`, server.c lines 213-286)

The open file is modelled by its remaining content, a list of wire bytes.
`fread(buffer, 1, BLKSIZE, file)` returns `min BLKSIZE remaining` bytes and
sets the eof indicator exactly when fewer than `BLKSIZE` bytes remained.
The loop body emits one framed segment: a header with
`message_size = read_size` followed by the `read_size + 1` payload bytes
`data ++ [checksum byte]`.  The embedding is fuel-indexed: `none` means the
loop did not return within `fuel` iterations.
-/

/-- Error surfaced by `send_file` (return value -1). -/
inductive SendErr where
  | streamError
deriving DecidableEq, Repr

/-- One wire segment: the header's `message_size` and the raw payload bytes
that follow the header (`data ++ [checksum]`, `message_size + 1` bytes). -/
abbrev Segment := Nat × List Nat

/-- The `while (sent_size < filesize)` loop of `send_file`.  Per iteration:
`fread` up to `BLKSIZE` bytes; a short read without eof is a stream error
(return -1); otherwise append the checksum byte and emit the segment, then
advance `sent_size` by `read_size`. -/
def sendLoop : Nat → List Nat → Nat → Nat → Option (Except SendErr (List Segment))
  | 0, _, _, _ => none
  | fuel + 1, file, sent_size, filesize =>
    if sent_size < filesize then
      let data := file.take BLKSIZE
      let read_size := data.length
      let eof : Bool := decide (file.length < BLKSIZE)
      if read_size < BLKSIZE ∧ eof = false then some (.error .streamError)
      else
        let seg : Segment := (read_size, data ++ [toByte (checksum data)])
        match sendLoop fuel (file.drop read_size) (sent_size + read_size) filesize with
        | none => none
        | some (.error e) => some (.error e)
        | some (.ok segs) => some (.ok (seg :: segs))
    else some (.ok [])

/-- Function `send_file` of server.c restricted to its loop (the `fopen`/`calloc`
prologue is assumed successful): the segments written for a file whose
remaining content is `content` and whose declared size is `filesize`. -/
def send_file (content : List Nat) (filesize fuel : Nat) :
    Option (Except SendErr (List Segment)) :=
  sendLoop fuel content 0 filesize

/-- Data-segment sizes produced when splitting `n` bytes into `BLKSIZE`
chunks from the front. -/
def chunk_sizes (n : Nat) : List Nat :=
  if n = 0 then [] else min BLKSIZE n :: chunk_sizes (n - min BLKSIZE n)
termination_by n
decreasing_by simp [BLKSIZE]; omega

/-!
## Receive path (`receive_file`, client lines 441-539)

Each loop iteration performs, in source order: a header `read`, a
`realloc` of the declared size, a single payload `read` of up to
`message_size + 1` bytes, the checksum comparison, and an `fwrite` of
`read_size - 1` bytes.  The environment of one iteration is a
`SocketIter`: `none` in a read field models the call returning -1.
The boolean paired with each outcome records whether the destination file
is still on disk when the function returns (`remove` is called only on the
checksum-mismatch exit, client lines 512-519).
-/

/-- Environment of one `receive_file` loop iteration. -/
structure SocketIter where
  headerRead : Option Nat
  reallocOk : Bool
  payloadRead : Option (List Nat)
  fwriteOk : Bool
deriving DecidableEq, Repr

/-- Error exits of `receive_file` (all return -1). -/
inductive RecvErr where
  | headerReadError
  | reallocError
  | segmentReadError
  | checksumError
  | writeError
deriving DecidableEq, Repr

/-- Result of one `receive_file` loop iteration: either an error return
(with the on-disk status of the destination file) or the data bytes
appended to the destination file. -/
inductive StepRes where
  | abort (e : RecvErr) (filePresent : Bool)
  | deliver (data : List Nat)
deriving DecidableEq, Repr

/-- One iteration of the `receive_file` loop, in source order.  Only a
payload `read` returning -1 is an error; any non-negative `read_size` is
processed as `read_size - 1` data bytes plus a checksum byte.  The
checksum-mismatch exit is the only one that calls
`remove(filename_buffer)`. -/
def receiveStep : SocketIter → StepRes
  | ⟨none, _, _, _⟩ => .abort .headerReadError true
  | ⟨some _L, false, _, _⟩ => .abort .reallocError true
  | ⟨some _L, true, none, _⟩ => .abort .segmentReadError true
  | ⟨some _L, true, some bs, fwriteOk⟩ =>
    let read_size := bs.length
    let data := bs.take (read_size - 1)
    if checksum data = byteVal (bs.getD (read_size - 1) 0) then
      if fwriteOk then .deliver data
      else .abort .writeError true
    else .abort .checksumError false

/-- The `while (received_size < filesize)` loop of `receive_file`, fuel
indexed.  On normal completion the destination file holds `written` and is
present on disk (`true`); `none` means the loop neither completed nor
failed within `fuel` iterations (or the environment ran dry). -/
def receiveSession : Nat → List SocketIter → Nat → Nat → List Nat →
    Option (Except RecvErr (List Nat) × Bool)
  | 0, _, _, _, _ => none
  | _fuel + 1, [], received_size, filesize, written =>
    if received_size < filesize then none else some (.ok written, true)
  | fuel + 1, it :: rest, received_size, filesize, written =>
    if received_size < filesize then
      match receiveStep it with
      | .abort e present => some (.error e, present)
      | .deliver data =>
        receiveSession fuel rest (received_size + data.length) filesize (written ++ data)
    else some (.ok written, true)

/-- The iteration environment offered by an intact wire carrying segment
`seg`: the header read returns the segment's `message_size`, `realloc`
succeeds, the payload read returns the full `message_size + 1` payload
bytes, and `fwrite` succeeds. -/
def honestIter (seg : Segment) : SocketIter :=
  ⟨some seg.1, true, some seg.2, true⟩

/-!
## Claim theorems
-/

/-- C4 counterexample: the claim says a frame header occupies exactly 5
bytes on the wire; both sides actually pass `sizeof(message_header)` to
`read`/`write`, and with a `char` followed by a `uint32_t` that size is 8,
not 5. -/
theorem C4_counterexample : header_io_byte_count = 8 ∧ header_io_byte_count ≠ 5 := by
  decide

/-- C4 (amended): every message on the wire is prefixed by a fixed header
of `sizeof(message_header)` = 8 bytes: 1 tag byte, 3 padding bytes, then 4
bytes of unsigned length at offset 4; the number of header bytes written
(server.c line 252) and read (client line 472) per frame is exactly this
sizeof. -/
theorem C4_header_is_8_bytes :
    sizeof_message_header = 8 ∧ offsetof_message_size = 4 ∧
    header_padding_bytes = 3 ∧ header_io_byte_count = sizeof_message_header := by
  decide

/-- C7: a request whose header declares a filename length greater than
`MAX_ALLOCATION_SIZE` = 1024 makes `accept_file_request` return `NULL`
having performed no allocation at all, and the session sends no reply;
a declared length of at most 1024 (with the `'f'` tag) passes the size
check and reaches the `malloc` of exactly the declared size. -/
theorem C7_oversized_request_rejected :
    ∀ (h : message_header) (mallocOk : Bool) (nr : Option (List Nat)),
    (MAX_ALLOCATION_SIZE < h.message_size →
      accept_file_request (some h) mallocOk nr = (none, []) ∧
      session_sends_reply (some h) mallocOk nr = false) ∧
    (h.message_type = fByte → h.message_size ≤ MAX_ALLOCATION_SIZE →
      (accept_file_request (some h) mallocOk nr).2 = [h.message_size]) := by
  intro h mallocOk nr
  constructor
  · intro hgt
    by_cases ht : h.message_type = fByte
    · constructor
      · simp [accept_file_request, ht, hgt]
      · simp [session_sends_reply, accept_file_request, ht, hgt]
    · constructor
      · simp [accept_file_request, ht]
      · simp [session_sends_reply, accept_file_request, ht]
  · intro ht hle
    have hnot : ¬ MAX_ALLOCATION_SIZE < h.message_size := by omega
    cases mallocOk with
    | false => simp [accept_file_request, ht, hnot]
    | true =>
      cases nr with
      | none => simp [accept_file_request, ht, hnot]
      | some name => simp [accept_file_request, ht, hnot]

theorem C7_witness :
    (MAX_ALLOCATION_SIZE < (1500 : Nat) ∧
      (accept_file_request (some ⟨102, 1500⟩) true (some [97]) = (none, []) ∧
        session_sends_reply (some ⟨102, 1500⟩) true (some [97]) = false)) ∧
    ((102 : Nat) = fByte ∧ (10 : Nat) ≤ MAX_ALLOCATION_SIZE ∧
      (accept_file_request (some ⟨102, 10⟩) true (some [97])).2 = [10]) :=
  ⟨⟨by decide, (C7_oversized_request_rejected ⟨102, 1500⟩ true (some [97])).1 (by decide)⟩,
   ⟨rfl, by decide,
    (C7_oversized_request_rejected ⟨102, 10⟩ true (some [97])).2 rfl (by decide)⟩⟩

/-- C9: the destination name used by the client's `receive_file` is the
literal prefix "received_" prepended to the requested filename, so the
requested filename itself is never opened for writing. -/
theorem C9_dest_filename_fresh : ∀ f : List Char,
    dest_filename f = ("received_".data) ++ f ∧ dest_filename f ≠ f := by
  intro f
  refine ⟨rfl, fun h => ?_⟩
  have hl := congrArg List.length h
  simp [dest_filename] at hl
  omega

/-- C10: once the server replies that the file is present (length > 0),
the client invokes `receive_file` exactly when the single character read
from stdin is `'y'` or `'Y'`; on any other character it closes the
connection without receiving (hence without creating a file). -/
theorem C10_prompt_gates_receive : ∀ (filesize : Int) (response : Char),
    0 < filesize →
    (client_after_reply filesize response = .invokeReceive ↔
      (response = 'y' ∨ response = 'Y')) ∧
    (response ≠ 'y' → response ≠ 'Y' →
      client_after_reply filesize response = .closeWithoutReceive) := by
  intro fs r hfs
  have h1 : ¬ (fs = -1) := by omega
  have h2 : ¬ (fs = 0) := by omega
  by_cases hY : r = 'Y' <;> by_cases hy : r = 'y' <;>
    simp [client_after_reply, h1, h2, hY, hy]

theorem C10_witness :
    (0 : Int) < 600 ∧
    ((client_after_reply 600 'n' = .invokeReceive ↔ ('n' = 'y' ∨ 'n' = 'Y')) ∧
      ('n' ≠ 'y' → 'n' ≠ 'Y' →
        client_after_reply 600 'n' = .closeWithoutReceive)) :=
  ⟨by decide, C10_prompt_gates_receive 600 'n' (by decide)⟩

/-- C2 counterexample: a header-read failure (`read` returning -1) in the
first loop iteration ends the session with an I/O error while the
destination file is still present on disk (`true`): `receive_file` calls
`remove` only on the checksum-mismatch exit. -/
theorem C2_counterexample :
    receiveSession 1 [⟨none, true, none, true⟩] 0 1 [] =
      some (.error .headerReadError, true) := rfl

/-- C5 counterexample: flipping bit 5 of the single data byte 0x00 turns it
into 0x20 = 32, which changes the signed sum by exactly 32 ≡ 0 (mod 32),
so the receiver's checksum check still passes. -/
theorem C5_counterexample :
    recv_checksum_ok (List.set [0] 0 (Nat.xor (List.getD [0] 0 0) (2 ^ 5)))
      (toByte (checksum [0])) = true := rfl

/-- C6 counterexample: the header declares L = 512 but the payload `read`
returns only 2 bytes; `receive_file` does not treat the short read as an
error — it checksums the 1 data byte, accepts it, and the transfer even
completes successfully. -/
theorem C6_counterexample :
    receiveSession 2 [⟨some 512, true, some [0, 0], true⟩] 0 1 [] =
      some (.ok [0], true) ∧ List.length [0, 0] < 512 + 1 :=
  ⟨rfl, by decide⟩

/-- If `receive_file`'s loop body returns an error, the destination file is
absent afterwards exactly when the error was the checksum mismatch: that is
the only exit that calls `remove`. -/
theorem receiveStep_abort_present (it : SocketIter) (e : RecvErr) (present : Bool) :
    receiveStep it = .abort e present → (present = false ↔ e = .checksumError) := by
  obtain ⟨hr, rOk, pr, fw⟩ := it
  cases hr with
  | none =>
    intro h
    injection h with h1 h2
    subst h1
    subst h2
    simp
  | some L =>
    cases rOk with
    | false =>
      intro h
      injection h with h1 h2
      subst h1
      subst h2
      simp
    | true =>
      cases pr with
      | none =>
        intro h
        injection h with h1 h2
        subst h1
        subst h2
        simp
      | some bs =>
        simp only [receiveStep]
        by_cases hck : checksum (bs.take (bs.length - 1)) =
            byteVal (bs.getD (bs.length - 1) 0)
        · rw [if_pos hck]
          cases fw with
          | false =>
            intro h
            injection h with h1 h2
            subst h1
            subst h2
            simp
          | true => intro h; exact StepRes.noConfusion h
        · rw [if_neg hck]
          intro h
          injection h with h1 h2
          subst h1
          subst h2
          simp

/-- C2 (amended): on the receive path, a failure exit leaves no destination
file on disk exactly when the failure is a checksum mismatch; every other
failure exit (header read error, realloc failure, segment read error,
write error) leaves the partially-written destination file on disk. -/
theorem C2_cleanup_only_on_checksum_mismatch :
    ∀ (fuel : Nat) (iters : List SocketIter) (received filesize : Nat)
      (written : List Nat) (e : RecvErr) (present : Bool),
    (∀ it ∈ iters, it.payloadRead ≠ some []) →
    receiveSession fuel iters received filesize written = some (.error e, present) →
    (present = false ↔ e = .checksumError) := by
  intro fuel
  induction fuel with
  | zero =>
    intro iters r fs w e p _ h
    exact absurd h (by simp [receiveSession])
  | succ fuel ih =>
    intro iters r fs w e p hWF h
    cases iters with
    | nil =>
      simp only [receiveSession] at h
      by_cases hlt : r < fs
      · rw [if_pos hlt] at h
        exact Option.noConfusion h
      · rw [if_neg hlt] at h
        injection h with h1
        injection h1 with h2 h3
        exact Except.noConfusion h2
    | cons it rest =>
      simp only [receiveSession] at h
      by_cases hlt : r < fs
      · rw [if_pos hlt] at h
        cases hstep : receiveStep it with
        | abort e' present' =>
          rw [hstep] at h
          simp only [] at h
          injection h with h1
          injection h1 with h2 h3
          injection h2 with h4
          subst h4
          subst h3
          exact receiveStep_abort_present it _ _ hstep
        | deliver data =>
          rw [hstep] at h
          simp only [] at h
          exact ih rest _ fs _ e p (fun x hx => hWF x (List.mem_cons_of_mem it hx)) h
      · rw [if_neg hlt] at h
        injection h with h1
        injection h1 with h2 h3
        exact Except.noConfusion h2

theorem C2_witness :
    (∀ it ∈ [(⟨some 1, true, some [0, 1], true⟩ : SocketIter)],
      it.payloadRead ≠ some []) ∧
    (false = false ↔ RecvErr.checksumError = RecvErr.checksumError) :=
  ⟨by decide,
   C2_cleanup_only_on_checksum_mismatch 1 [⟨some 1, true, some [0, 1], true⟩]
     0 1 [] .checksumError false (by decide) rfl⟩

/-- C3: with a file whose remaining content is shorter than the declared
size, `send_file`'s loop never returns: `fread` at end-of-file returns 0
with the eof indicator set, so the `read_size < BLKSIZE && !feof(file)`
error branch is not taken, a zero-length segment is emitted, and
`sent_size` never advances.  The loop does not terminate and -1 is never
returned, for any iteration bound. -/
theorem C3_send_loop_diverges :
    ∀ (fuel : Nat) (content : List Nat) (sent_size filesize : Nat),
    sent_size + content.length < filesize →
    sendLoop fuel content sent_size filesize = none := by
  intro fuel
  induction fuel with
  | zero => intro content sent fs _; rfl
  | succ fuel ih =>
    intro content sent fs h
    have hlt : sent < fs := by omega
    have hrec : sendLoop fuel (content.drop (content.take BLKSIZE).length)
        (sent + (content.take BLKSIZE).length) fs = none := by
      apply ih
      have h1 : (content.take BLKSIZE).length ≤ content.length := by
        simp [List.length_take]
      have h2 : (content.drop (content.take BLKSIZE).length).length =
          content.length - (content.take BLKSIZE).length := by
        simp [List.length_drop]
      omega
    simp only [sendLoop, if_pos hlt]
    by_cases hsmall : content.length < BLKSIZE
    · have heof : (decide (content.length < BLKSIZE)) = true := by
        simp [hsmall]
      rw [if_neg (by simp [heof])]
      rw [hrec]
    · have hts : (content.take BLKSIZE).length = BLKSIZE := by
        simp [List.length_take]
        omega
      rw [if_neg (by rw [hts]; simp)]
      rw [hrec]

theorem C3_witness :
    0 + List.length ([] : List Nat) < 1 ∧ sendLoop 5 [] 0 1 = none :=
  ⟨by decide, C3_send_loop_diverges 5 [] 0 1 (by decide)⟩

/-- C6 (amended): after the header declares length L, `receive_file`
issues a single `read` of up to L+1 bytes; the read aborts the transfer
(as a segment read error) if and only if `read` returned -1.  A short but
non-negative read of `k` bytes is not an error: it is processed as a
segment of `k - 1` data bytes plus one checksum byte. -/
theorem C6_short_read_accepted :
    ∀ (it : SocketIter) (L : Nat),
    it.headerRead = some L → it.reallocOk = true →
    ((receiveStep it = .abort .segmentReadError true ↔ it.payloadRead = none) ∧
     (∀ bs : List Nat, it.payloadRead = some bs →
        recv_checksum_ok (bs.take (bs.length - 1)) (bs.getD (bs.length - 1) 0) = true →
        it.fwriteOk = true →
        receiveStep it = .deliver (bs.take (bs.length - 1)))) := by
  intro it L hL hra
  obtain ⟨hr, rOk, pr, fw⟩ := it
  simp only at hL hra
  subst hL
  subst hra
  constructor
  · constructor
    · intro h
      cases pr with
      | none => rfl
      | some bs =>
        simp only [receiveStep] at h
        by_cases hck : checksum (bs.take (bs.length - 1)) =
            byteVal (bs.getD (bs.length - 1) 0)
        · rw [if_pos hck] at h
          cases fw with
          | false =>
            injection h with h1 h2
            exact RecvErr.noConfusion h1
          | true => exact StepRes.noConfusion h
        · rw [if_neg hck] at h
          injection h with h1 h2
          exact RecvErr.noConfusion h1
    · intro h
      simp only at h
      subst h
      rfl
  · intro bs hbs hck hfw
    simp only at hbs hfw
    subst hbs
    subst hfw
    simp only [receiveStep]
    have hck' : checksum (bs.take (bs.length - 1)) =
        byteVal (bs.getD (bs.length - 1) 0) := by
      simpa [recv_checksum_ok] using hck
    rw [if_pos hck']
    simp

theorem C6_witness :
    ((⟨some 512, true, some [0, 0], true⟩ : SocketIter).headerRead = some 512) ∧
    ((receiveStep ⟨some 512, true, some [0, 0], true⟩ = .abort .segmentReadError true ↔
        (⟨some 512, true, some [0, 0], true⟩ : SocketIter).payloadRead = none) ∧
     (∀ bs : List Nat,
        (⟨some 512, true, some [0, 0], true⟩ : SocketIter).payloadRead = some bs →
        recv_checksum_ok (bs.take (bs.length - 1)) (bs.getD (bs.length - 1) 0) = true →
        (⟨some 512, true, some [0, 0], true⟩ : SocketIter).fwriteOk = true →
        receiveStep ⟨some 512, true, some [0, 0], true⟩ =
          .deliver (bs.take (bs.length - 1)))) :=
  ⟨rfl, C6_short_read_accepted ⟨some 512, true, some [0, 0], true⟩ 512 rfl rfl⟩

/-- Shape of every segment `send_file` emits when the file content matches
the declared size: a non-empty data chunk of at most `BLKSIZE` bytes, the
header length equal to the chunk length, and the payload being the chunk
followed by its checksum byte. -/
def goodSeg (seg : Segment) : Prop :=
  ∃ data : List Nat, data ≠ [] ∧ data.length ≤ BLKSIZE ∧
    seg.1 = data.length ∧ seg.2 = data ++ [toByte (checksum data)]

/-- When the file content has exactly the declared size, `send_file`'s
loop terminates and returns the segment list whose data chunks
concatenate back to the content and whose sizes are the `BLKSIZE`
chunking of the size. -/
theorem sendLoop_spec :
    ∀ (fuel : Nat) (content : List Nat) (sent filesize : Nat),
    sent + content.length = filesize → content.length < fuel →
    ∃ segs : List Segment,
      sendLoop fuel content sent filesize = some (.ok segs) ∧
      (segs.map fun s => s.2.dropLast).flatten = content ∧
      segs.map Prod.fst = chunk_sizes content.length ∧
      (∀ seg ∈ segs, goodSeg seg) := by
  intro fuel
  induction fuel with
  | zero => intro content sent fs _ hf; omega
  | succ fuel ih =>
    intro content sent fs hsum hf
    by_cases hempty : content = []
    · subst hempty
      have hns : ¬ sent < fs := by simp at hsum; omega
      refine ⟨[], ?_, by simp, ?_, by simp⟩
      · simp only [sendLoop, if_neg hns]
      · rw [chunk_sizes]
        simp
    · have hB : BLKSIZE = 512 := rfl
      have hpos : 0 < content.length := List.length_pos.mpr hempty
      have hlt : sent < fs := by omega
      have hrs : (content.take BLKSIZE).length = min BLKSIZE content.length :=
        List.length_take _ _
      have hrs_pos : 0 < (content.take BLKSIZE).length := by
        rw [hrs]
        exact lt_min_iff.mpr ⟨by omega, hpos⟩
      have hrs_le : (content.take BLKSIZE).length ≤ content.length := by
        rw [hrs]
        exact Nat.min_le_right _ _
      have hrs_le' : (content.take BLKSIZE).length ≤ BLKSIZE := by
        rw [hrs]
        exact Nat.min_le_left _ _
      have hdrop : (content.drop (content.take BLKSIZE).length).length
          = content.length - (content.take BLKSIZE).length := List.length_drop _ _
      obtain ⟨segs, hrec, hjoin, hsizes, hgood⟩ :=
        ih (content.drop (content.take BLKSIZE).length)
          (sent + (content.take BLKSIZE).length) fs (by omega) (by omega)
      have herr : ¬ ((content.take BLKSIZE).length < BLKSIZE ∧
          (decide (content.length < BLKSIZE)) = false) := by
        intro hand
        obtain ⟨h1, h2⟩ := hand
        rw [hrs] at h1
        have h3 : ¬ content.length < BLKSIZE := by
          intro hc
          simp [hc] at h2
        have h4 : min BLKSIZE content.length = BLKSIZE := Nat.min_eq_left (by omega)
        omega
      have hcs : chunk_sizes content.length =
          (content.take BLKSIZE).length ::
            chunk_sizes (content.length - (content.take BLKSIZE).length) := by
        rw [chunk_sizes, if_neg (by omega), hrs]
      refine ⟨((content.take BLKSIZE).length,
        content.take BLKSIZE ++ [toByte (checksum (content.take BLKSIZE))]) :: segs,
        ?_, ?_, ?_, ?_⟩
      · simp only [sendLoop, if_pos hlt, if_neg herr, hrec]
      · simp only [List.map_cons, List.flatten_cons]
        rw [List.dropLast_concat, hjoin]
        have hds : content.drop (content.take BLKSIZE).length = content.drop BLKSIZE := by
          rw [hrs]
          rcases Nat.le_total BLKSIZE content.length with h | h
          · rw [Nat.min_eq_left h]
          · rw [Nat.min_eq_right h, List.drop_eq_nil_of_le h,
              List.drop_eq_nil_of_le (Nat.le_refl _)]
        rw [hds, List.take_append_drop]
      · simp only [List.map_cons]
        rw [hsizes, hdrop, hcs]
      · intro seg hseg
        rcases List.mem_cons.mp hseg with h | h
        · subst h
          refine ⟨content.take BLKSIZE, ?_, hrs_le', rfl, rfl⟩
          intro hnil
          rw [hnil] at hrs_pos
          simp at hrs_pos
        · exact hgood seg h

/-- On an intact wire, one `receive_file` iteration over a well-formed
segment passes the checksum comparison and delivers exactly the segment's
data chunk. -/
theorem receiveStep_honest (seg : Segment) (h : goodSeg seg) :
    receiveStep (honestIter seg) = .deliver (seg.2.dropLast) := by
  obtain ⟨L, payload⟩ := seg
  obtain ⟨data, hne, hle, hfst, hsnd⟩ := h
  simp only at hfst hsnd
  subst hfst
  subst hsnd
  rw [List.dropLast_concat]
  simp only [honestIter, receiveStep]
  have h1 : (data ++ [toByte (checksum data)]).length - 1 = data.length := by simp
  have h2 : (data ++ [toByte (checksum data)]).take data.length = data :=
    List.take_left' rfl
  have h3 : (data ++ [toByte (checksum data)]).getD data.length 0 =
      toByte (checksum data) := by
    rw [List.getD_eq_getElem?_getD, List.getElem?_append_right (Nat.le_refl _)]
    simp
  rw [h1, h2, h3, byteVal_toByte_checksum]
  simp

/-- On an intact wire carrying exactly the remaining well-formed segments,
`receive_file`'s loop completes and appends all their data chunks to the
destination file. -/
theorem receiveSession_honest :
    ∀ (segs : List Segment) (fuel received filesize : Nat) (written : List Nat),
    (∀ seg ∈ segs, goodSeg seg) →
    received + ((segs.map fun s => s.2.dropLast).flatten).length = filesize →
    segs.length < fuel →
    receiveSession fuel (segs.map honestIter) received filesize written =
      some (.ok (written ++ (segs.map fun s => s.2.dropLast).flatten), true) := by
  intro segs
  induction segs with
  | nil =>
    intro fuel r fs w _ hsum hfuel
    cases fuel with
    | zero => omega
    | succ fuel =>
      simp only [List.map_nil, receiveSession]
      have hns : ¬ r < fs := by simp at hsum; omega
      rw [if_neg hns]
      simp
  | cons seg rest ih =>
    intro fuel r fs w hgood hsum hfuel
    cases fuel with
    | zero => omega
    | succ fuel =>
      have hstep := receiveStep_honest seg (hgood seg (List.mem_cons_self _ _))
      obtain ⟨data, hne, hle, hfst, hsnd⟩ := hgood seg (List.mem_cons_self _ _)
      have hdl : seg.2.dropLast = data := by
        rw [hsnd]
        exact List.dropLast_concat ..
      have hdpos : 0 < data.length := List.length_pos.mpr hne
      have hflat : ((seg :: rest).map fun s => s.2.dropLast).flatten =
          data ++ ((rest.map fun s => s.2.dropLast).flatten) := by
        simp only [List.map_cons, List.flatten_cons, hdl]
      have hlenflat : (((seg :: rest).map fun s => s.2.dropLast).flatten).length =
          data.length + ((rest.map fun s => s.2.dropLast).flatten).length := by
        rw [hflat, List.length_append]
      have hlt : r < fs := by omega
      have hrest := ih fuel (r + data.length) fs (w ++ data)
        (fun s hs => hgood s (List.mem_cons_of_mem _ hs))
        (by omega)
        (by simp only [List.length_cons] at hfuel; omega)
      simp only [List.map_cons, receiveSession]
      rw [if_pos hlt, hstep, hdl]
      simp only []
      rw [hrest, List.flatten_cons, List.append_assoc]

theorem chunk_sizes_len (n : Nat) : (chunk_sizes n).length = (n + 511) / 512 := by
  induction n using Nat.strong_induction_on with
  | _ n ih =>
    rw [chunk_sizes]
    by_cases h : n = 0
    · subst h
      simp
    · rw [if_neg h]
      simp only [List.length_cons]
      have hB : BLKSIZE = 512 := rfl
      rcases Nat.le_total n BLKSIZE with hle | hle
      · have hmin : min BLKSIZE n = n := Nat.min_eq_right hle
        rw [hmin]
        have hz : n - n = 0 := by omega
        have h0 : chunk_sizes 0 = [] := by
          rw [chunk_sizes]
          simp
        rw [hz, h0]
        simp only [List.length_cons, List.length_nil]
        omega
      · have hmin : min BLKSIZE n = BLKSIZE := Nat.min_eq_left hle
        rw [hmin]
        have ihh := ih (n - BLKSIZE) (by omega)
        rw [ihh]
        omega

theorem chunk_sizes_length_le (n : Nat) : (chunk_sizes n).length ≤ n := by
  rw [chunk_sizes_len]
  omega

theorem chunk_sizes_zero : chunk_sizes 0 = [] := by
  rw [chunk_sizes]
  simp

theorem chunk_sizes_small (n : Nat) (h1 : n ≠ 0) (h2 : n ≤ BLKSIZE) :
    chunk_sizes n = [n] := by
  rw [chunk_sizes, if_neg h1, Nat.min_eq_right h2]
  have hz : n - n = 0 := by omega
  rw [hz, chunk_sizes_zero]

theorem chunk_sizes_513 : chunk_sizes 513 = [512, 1] := by
  rw [chunk_sizes, if_neg (by decide), Nat.min_eq_left (by decide)]
  have h1 : (513 : Nat) - BLKSIZE = 1 := by decide
  rw [h1, chunk_sizes_small 1 (by decide) (by decide)]
  rfl

/-- C1: for a file whose content matches its declared size N (N fitting in
32 bits), a complete request-reply-transfer session over an intact wire —
every segment delivered whole, every checksum verifying (which the honest
environment makes true) — terminates and writes a destination file whose
bytes are exactly the source content, hence of size N. -/
theorem C1_roundtrip :
    ∀ (content : List Nat) (filesize : Nat),
    filesize = content.length → filesize < 2 ^ 32 →
    ∃ segs : List Segment,
      send_file content filesize (filesize + 1) = some (.ok segs) ∧
      receiveSession (filesize + 1) (segs.map honestIter) 0 filesize [] =
        some (.ok content, true) := by
  intro content fs hfs _h32
  obtain ⟨segs, hsend, hflat, hsizes, hgood⟩ :=
    sendLoop_spec (fs + 1) content 0 fs (by omega) (by omega)
  refine ⟨segs, hsend, ?_⟩
  have hlensegs : segs.length < fs + 1 := by
    have hl := congrArg List.length hsizes
    rw [List.length_map] at hl
    have hle := chunk_sizes_length_le content.length
    omega
  have hrecv := receiveSession_honest segs (fs + 1) 0 fs [] hgood
    (by rw [hflat]; omega) hlensegs
  rw [hrecv, hflat, List.nil_append]

theorem C1_witness :
    ((3 : Nat) = List.length [1, 2, 3] ∧ (3 : Nat) < 2 ^ 32) ∧
    (∃ segs : List Segment,
      send_file [1, 2, 3] 3 (3 + 1) = some (.ok segs) ∧
      receiveSession (3 + 1) (segs.map honestIter) 0 3 [] =
        some (.ok [1, 2, 3], true)) :=
  ⟨⟨by decide, by decide⟩, C1_roundtrip [1, 2, 3] 3 (by decide) (by decide)⟩

/-- C8: when the content matches the declared size N, `send_file` emits
exactly `⌈N / 512⌉` segments whose data sizes are the front-to-back
`BLKSIZE` chunking of N; in particular N = 512 gives one segment of 512
data bytes, N = 513 gives two segments of 512 and 1 data bytes in that
order, and N = 0 gives zero segments (the loop body never runs). -/
theorem C8_segmentation :
    ∀ (content : List Nat) (filesize : Nat), content.length = filesize →
    ∃ segs : List Segment,
      send_file content filesize (filesize + 1) = some (.ok segs) ∧
      segs.map Prod.fst = chunk_sizes filesize ∧
      segs.length = (filesize + 511) / 512 ∧
      (filesize = 512 → segs.map Prod.fst = [512]) ∧
      (filesize = 513 → segs.map Prod.fst = [512, 1]) ∧
      (filesize = 0 → segs = []) := by
  intro content fs hlen
  obtain ⟨segs, hsend, hflat, hsizes, hgood⟩ :=
    sendLoop_spec (fs + 1) content 0 fs (by omega) (by omega)
  rw [hlen] at hsizes
  refine ⟨segs, hsend, hsizes, ?_, ?_, ?_, ?_⟩
  · have hl := congrArg List.length hsizes
    rw [List.length_map, chunk_sizes_len] at hl
    exact hl
  · intro h512
    rw [hsizes, h512, chunk_sizes_small 512 (by decide) (by decide)]
  · intro h513
    rw [hsizes, h513, chunk_sizes_513]
  · intro h0
    rw [h0, chunk_sizes_zero] at hsizes
    exact List.map_eq_nil_iff.mp hsizes

theorem C8_witness :
    List.length [7, 8, 9] = 3 ∧
    (∃ segs : List Segment,
      send_file [7, 8, 9] 3 (3 + 1) = some (.ok segs) ∧
      segs.map Prod.fst = chunk_sizes 3 ∧
      segs.length = (3 + 511) / 512 ∧
      ((3 : Nat) = 512 → segs.map Prod.fst = [512]) ∧
      ((3 : Nat) = 513 → segs.map Prod.fst = [512, 1]) ∧
      ((3 : Nat) = 0 → segs = [])) :=
  ⟨by decide, C8_segmentation [7, 8, 9] 3 (by decide)⟩

set_option maxRecDepth 10000 in
set_option maxHeartbeats 1000000 in
/-- Flipping one of the five low bits of a byte changes its signed `char`
value by exactly plus or minus that power of two (checked by enumeration
over all 256 byte values and 5 bit positions). -/
theorem byteVal_flip_delta :
    ∀ (b : Fin 256) (k : Fin 5),
      byteVal (Nat.xor b.val (2 ^ k.val)) = byteVal b.val + 2 ^ k.val ∨
      byteVal (Nat.xor b.val (2 ^ k.val)) = byteVal b.val - 2 ^ k.val := by
  decide

theorem sum_map_byteVal_set :
    ∀ (data : List Nat) (i x : Nat), i < data.length →
      ((data.set i x).map byteVal).sum + byteVal (data.getD i 0) =
      (data.map byteVal).sum + byteVal x := by
  intro data
  induction data with
  | nil => intro i x h; simp at h
  | cons d ds ih =>
    intro i x h
    cases i with
    | zero =>
      simp only [List.set_cons_zero, List.map_cons, List.sum_cons, List.getD_cons_zero]
      omega
    | succ i =>
      simp only [List.set_cons_succ, List.map_cons, List.sum_cons, List.getD_cons_succ]
      have hih := ih i x (by simp only [List.length_cons] at h; omega)
      omega

/-- C5 (amended): flipping any single bit among the five low bits (bit
positions 0-4) of any one data byte before it reaches the receiver changes
the recomputed checksum, so the segment's checksum check fails.  (Flips of
bits 5, 6 or 7 change the signed sum by a multiple of 32 and can escape
detection — see the counterexample.) -/
theorem C5_low_bit_flips_detected :
    ∀ (data : List Nat) (i k : Nat),
    (∀ b ∈ data, b < 256) → i < data.length → k < 5 →
    recv_checksum_ok (data.set i (Nat.xor (data.getD i 0) (2 ^ k)))
      (toByte (checksum data)) = false := by
  intro data i k hrange hi hk
  have hmem : data.getD i 0 ∈ data := by
    rw [List.getD_eq_getElem?_getD, List.getElem?_eq_getElem hi]
    simp only [Option.getD_some]
    exact List.getElem_mem hi
  have hblt : data.getD i 0 < 256 := hrange _ hmem
  have hdelta : byteVal (Nat.xor (data.getD i 0) (2 ^ k)) =
      byteVal (data.getD i 0) + 2 ^ k ∨
      byteVal (Nat.xor (data.getD i 0) (2 ^ k)) =
      byteVal (data.getD i 0) - 2 ^ k :=
    byteVal_flip_delta ⟨data.getD i 0, hblt⟩ ⟨k, hk⟩
  have hsum := sum_map_byteVal_set data i (Nat.xor (data.getD i 0) (2 ^ k)) hi
  unfold recv_checksum_ok
  rw [byteVal_toByte_checksum, beq_eq_false_iff_ne]
  intro heq
  have heq' : (((data.set i (Nat.xor (data.getD i 0) (2 ^ k))).map byteVal).sum).tmod 32 =
      ((data.map byteVal).sum).tmod 32 := heq
  obtain ⟨c1, hc1⟩ := dvd_sub_tmod32 ((data.map byteVal).sum)
  obtain ⟨c2, hc2⟩ :=
    dvd_sub_tmod32 (((data.set i (Nat.xor (data.getD i 0) (2 ^ k))).map byteVal).sum)
  have hpow1 : (0 : Int) < 2 ^ k := pow_pos (by norm_num) k
  have hpow2 : (2 : Int) ^ k ≤ 2 ^ 4 := pow_le_pow_right₀ (by norm_num) (by omega)
  have hpow3 : (2 : Int) ^ 4 = 16 := by norm_num
  rcases hdelta with hd | hd <;> omega

theorem C5_witness :
    ((∀ b ∈ [0, 200], b < 256) ∧ 1 < List.length [0, 200] ∧ (3 : Nat) < 5) ∧
    recv_checksum_ok (List.set [0, 200] 1 (Nat.xor (List.getD [0, 200] 1 0) (2 ^ 3)))
      (toByte (checksum [0, 200])) = false :=
  ⟨⟨by decide, by decide, by decide⟩,
   C5_low_bit_flips_detected [0, 200] 1 3 (by decide) (by decide) (by decide)⟩
